import Mathlib

/-!
Shallow embedding of `tsout.py` (timestamping wrapper around a child command).

Bytes are modelled as `List Char` (the program only ever inspects the byte
0x0a, written `'\n'` here).  Each channel (stdout / stderr of the child) is a
`ChanState`: the accumulation buffer `buffers[fd]` and the `line_in_progress[fd]`
flag.  Output writes are modelled as a list of tokens: `Tok.pre` stands for one
write of the built prefix, `Tok.dat bs` for a write of payload bytes `bs`.
-/

namespace Tsout

abbrev Bytes := List Char

/-- Embedding of Python `bytes.split(b'\n')` (line 153 of tsout.py):
splits on every newline byte; the result always has one more element than the
number of newlines, the last element being the (possibly empty) trailing part. -/
def splitNl : Bytes → List Bytes
  | [] => [[]]
  | c :: rest =>
    match splitNl rest with
    | [] => [[]]
    | l :: ls => if c = '\n' then [] :: l :: ls else (c :: l) :: ls

/-- Inverse view of `splitNl`: complete lines each followed by a newline,
then the trailing part. -/
def unsplit (ls : List Bytes) : Bytes :=
  (ls.dropLast.map (fun l => l ++ ['\n'])).flatten ++ ls.getLastD []

/-- One output write: either the built prefix, or payload bytes. -/
inductive Tok where
  | pre : Tok
  | dat : Bytes → Tok
deriving DecidableEq, Repr

/-- Per-channel mutable state of the main loop: `buffers[fd]` and
`line_in_progress[fd]` (tsout.py lines 123-132). -/
structure ChanState where
  buffer : Bytes
  lineInProgress : Bool
deriving DecidableEq, Repr

def initChan : ChanState := ⟨[], false⟩

/-- The complete-lines loop of tsout.py lines 161-165: for each complete line,
write the prefix unless a line is in progress, write the line plus a newline,
and clear the flag. -/
def emitLines : Bool → List Bytes → List Tok × Bool
  | lip, [] => ([], lip)
  | lip, l :: ls =>
    let head := if lip then [Tok.dat (l ++ ['\n'])] else [Tok.pre, Tok.dat (l ++ ['\n'])]
    let r := emitLines false ls
    (head ++ r.1, r.2)

/-- One read batch on one channel (tsout.py lines 152-172): append the chunk to
the buffer, split on newlines into complete lines plus a trailing remainder,
emit the complete lines, then, if the remainder is non-empty, write
`prefix + partial_line` (unconditionally, as the source does on line 168), set
the flag and clear the buffer; otherwise just clear the buffer. -/
def processChunk (st : ChanState) (chunk : Bytes) : ChanState × List Tok :=
  let buf := st.buffer ++ chunk
  let lines := splitNl buf
  let complete := lines.dropLast
  let rest := lines.getLastD []
  let er := emitLines st.lineInProgress complete
  if rest = [] then (⟨[], er.2⟩, er.1)
  else (⟨[], true⟩, er.1 ++ [Tok.pre, Tok.dat rest])

/-- A sequence of read batches on a single channel. -/
def processBatches (st : ChanState) : List Bytes → ChanState × List Tok
  | [] => (st, [])
  | c :: cs =>
    let p := processChunk st c
    let r := processBatches p.1 cs
    (r.1, p.2 ++ r.2)

/-- Concatenation of the emitted bytes with every prefix write removed. -/
def stripPre (ts : List Tok) : Bytes :=
  ts.foldr (fun t acc => match t with | .pre => acc | .dat bs => bs ++ acc) []

/-- The per-channel final drain (tsout.py lines 188-197): leftover buffered
bytes are written with a trailing newline, prefixed only when no line was in
progress. -/
def drainToks (st : ChanState) : List Tok :=
  if st.buffer = [] then []
  else if st.lineInProgress then [Tok.dat (st.buffer ++ ['\n'])]
  else [Tok.pre, Tok.dat (st.buffer ++ ['\n'])]

/-! ## Two-channel system layer: the `while fds:` loop of `run_with_ptys` -/

/-- Outcome of one `os.read(fd, 4096)` call: clean end of stream (empty read),
an `OSError`, or a non-empty chunk of bytes. -/
inductive ReadResult where
  | eof : ReadResult
  | ioError : ReadResult
  | chunk : Bytes → ReadResult

/-- Parent-side state: the two pty master descriptors (stdout first, stderr
second, as `pty.openpty()` is called in that order on lines 54-55), the live
wait set `fds`, and the per-channel buffer and flag. -/
structure Sys where
  soFd : Nat
  seFd : Nat
  fds : List Nat
  soSt : ChanState
  seSt : ChanState
deriving DecidableEq, Repr

def Sys.getChan (s : Sys) (fd : Nat) : ChanState :=
  if fd = s.soFd then s.soSt else s.seSt

def Sys.setChan (s : Sys) (fd : Nat) (st : ChanState) : Sys :=
  if fd = s.soFd then { s with soSt := st } else { s with seSt := st }

/-- `fds.remove(fd); os.close(fd)` (lines 145-146 and 177-178). -/
def Sys.closeFd (s : Sys) (fd : Nat) : Sys :=
  { s with fds := s.fds.erase fd }

/-- Handling of one ready descriptor (lines 142-178).  An empty read (EOF)
closes the descriptor and removes it from the wait set; an `OSError` is caught
by the `except OSError` handler which does exactly the same; a chunk goes
through the split-and-emit batch logic.  Emitted tokens are tagged with the fd
they came from. -/
def handleFd (s : Sys) (fd : Nat) (r : ReadResult) : Sys × List (Nat × Tok) :=
  match r with
  | .eof => (s.closeFd fd, [])
  | .ioError => (s.closeFd fd, [])
  | .chunk bs =>
    let p := processChunk (s.getChan fd) bs
    (s.setChan fd p.1, p.2.map (fun t => (fd, t)))

/-- Descending insertion, embedding `sorted(readable, reverse=True)` (line 141). -/
def insertDesc (a : Nat) : List Nat → List Nat
  | [] => [a]
  | b :: l => if b ≤ a then a :: b :: l else b :: insertDesc a l

def sortDesc (l : List Nat) : List Nat := l.foldr insertDesc []

/-- The `for fd in sorted(readable, reverse=True)` loop body applied to an
already-sorted list of ready descriptors. -/
def runFds (res : Nat → ReadResult) : Sys → List Nat → Sys × List (Nat × Tok)
  | s, [] => (s, [])
  | s, fd :: rest =>
    let p := handleFd s fd (res fd)
    let r := runFds res p.1 rest
    (r.1, p.2 ++ r.2)

/-- One iteration of the main loop after `select.select` returned `readable`:
process the ready descriptors in descending fd order (stderr before stdout). -/
def runSelect (s : Sys) (readable : List Nat) (res : Nat → ReadResult) :
    Sys × List (Nat × Tok) :=
  runFds res s (sortDesc readable)

/-- An event observed by the main loop: either `select` returns with a set of
ready descriptors (with `res` giving each read's outcome), or a
`KeyboardInterrupt` is raised. -/
inductive Event where
  | select : List Nat → (Nat → ReadResult) → Event
  | interrupt : Event

def Event.isInterrupt : Event → Bool
  | .interrupt => true
  | _ => false

/-- Observable outcome of `run_with_ptys` from the loop onwards: all tagged
output writes, the wrapper's exit status, whether SIGTERM was forwarded to the
child, and whether the final drain step ran. -/
structure RunResult where
  output : List (Nat × Tok)
  exitCode : Nat
  sigtermSent : Bool
  drained : Bool
deriving DecidableEq, Repr

/-- Final drain for one channel (lines 188-197), tagged with its fd. -/
def drainFd (fd : Nat) (st : ChanState) : List (Nat × Tok) :=
  (drainToks st).map (fun t => (fd, t))

/-- The post-loop drain iterates over `buffers` in dict insertion order:
stdout first, then stderr (lines 123-126, 188). -/
def tagDrain (s : Sys) : List (Nat × Tok) :=
  drainFd s.soFd s.soSt ++ drainFd s.seFd s.seSt

/-- The main loop (lines 136-197): while descriptors remain open, consume
events; a `KeyboardInterrupt` forwards SIGTERM to the child and exits with
status 130 at once (lines 180-182), skipping `os.waitpid` and the drain; once
the wait set is empty the child is reaped and leftovers drained, the wrapper
exiting with the child's status. -/
def runLoop (childStatus : Nat) : Sys → List Event → RunResult
  | s, [] => ⟨tagDrain s, childStatus, false, true⟩
  | s, e :: rest =>
    if s.fds.isEmpty then ⟨tagDrain s, childStatus, false, true⟩
    else
      match e with
      | .interrupt => ⟨[], 130, true, false⟩
      | .select readable res =>
        let p := runSelect s readable res
        let r := runLoop childStatus p.1 rest
        ⟨p.2 ++ r.output, r.exitCode, r.sigtermSent, r.drained⟩

/-- Both accumulation buffers empty. -/
def bufEmpty (s : Sys) : Prop := s.soSt.buffer = [] ∧ s.seSt.buffer = []

/-! ## Timestamp formatter and prefix builder

Instants are modelled in whole microseconds since the Unix epoch (the source
works in float seconds printed with 6 fractional digits, i.e. microsecond
resolution). -/

/-- Decimal digits of a natural number, most significant first (the rendering
behind Python's `str`/format of an integer part). -/
def natChars (n : Nat) : List Char :=
  if h : n < 10 then [Nat.digitChar n]
  else natChars (n / 10) ++ [Nat.digitChar (n % 10)]
termination_by n
decreasing_by exact Nat.div_lt_self (by omega) (by omega)

/-- Two zero-padded decimal digits (`%m`, `%d`, `%H`, `%M`, `%S`). -/
def pad2 (n : Nat) : List Char :=
  [Nat.digitChar (n / 10 % 10), Nat.digitChar (n % 10)]

/-- Four zero-padded decimal digits (`%Y`). -/
def pad4 (n : Nat) : List Char :=
  [Nat.digitChar (n / 1000 % 10), Nat.digitChar (n / 100 % 10),
   Nat.digitChar (n / 10 % 10), Nat.digitChar (n % 10)]

/-- Six zero-padded decimal digits (`%f`, and the fraction of `:.6f`). -/
def pad6 (n : Nat) : List Char :=
  [Nat.digitChar (n / 100000 % 10), Nat.digitChar (n / 10000 % 10),
   Nat.digitChar (n / 1000 % 10), Nat.digitChar (n / 100 % 10),
   Nat.digitChar (n / 10 % 10), Nat.digitChar (n % 10)]

/-- `f"{x:.6f}"` for a non-negative value given in microseconds. -/
def fmt6 (micros : Nat) : List Char :=
  natChars (micros / 1000000) ++ '.' :: pad6 (micros % 1000000)

/-- `f"{x:.6f}"` for a possibly negative value given in microseconds. -/
def fmt6Int (micros : Int) : List Char :=
  if micros < 0 then '-' :: fmt6 micros.natAbs else fmt6 micros.natAbs

/-- Proleptic Gregorian date from days since 1970-01-01 (the civil-from-days
computation performed by `datetime.fromtimestamp(ts, timezone.utc)`). -/
def civilFromDays (z : Nat) : Nat × Nat × Nat :=
  let zs := z + 719468
  let era := zs / 146097
  let doe := zs % 146097
  let yoe := (doe - doe / 1460 + doe / 36524 - doe / 146097) / 365
  let y := yoe + era * 400
  let doy := doe - (365 * yoe + yoe / 4 - yoe / 100)
  let mp := (5 * doy + 2) / 153
  let d := doy - (153 * mp + 2) / 5 + 1
  let m := if mp < 10 then mp + 3 else mp - 9
  (if m ≤ 2 then y + 1 else y, m, d)

/-- `datetime.fromtimestamp(ts, timezone.utc).strftime('%Y-%m-%d %H:%M:%S.%f')`
(line 72): the layout is fixed; no host-timezone input exists, the conversion
is UTC by construction. -/
def utcChars (ts : Nat) : List Char :=
  pad4 (civilFromDays (ts / 1000000 / 86400)).1 ++
  '-' :: pad2 (civilFromDays (ts / 1000000 / 86400)).2.1 ++
  '-' :: pad2 (civilFromDays (ts / 1000000 / 86400)).2.2 ++
  ' ' :: pad2 (ts / 1000000 % 86400 / 3600) ++
  ':' :: pad2 (ts / 1000000 % 86400 % 3600 / 60) ++
  ':' :: pad2 (ts / 1000000 % 86400 % 60) ++
  '.' :: pad6 (ts % 1000000)

/-- `format_timestamp` (lines 70-76): UTC wall clock if `use_utc`, else
absolute Unix seconds if `use_unix_timestamps`, else seconds since
`start_time`.  All times in microseconds. -/
def format_timestamp (useUtc useUnix : Bool) (startTime ts : Nat) : List Char :=
  if useUtc then utcChars ts
  else if useUnix then fmt6 ts
  else fmt6Int ((ts : Int) - (startTime : Int))

/-- The fixed 26-character layout `YYYY-MM-DD HH:MM:SS.ssssss`. -/
def layoutOk : List Char → Bool
  | [y1, y2, y3, y4, s1, mo1, mo2, s2, d1, d2, s3, h1, h2, s4, mi1, mi2, s5,
     ss1, ss2, s6, f1, f2, f3, f4, f5, f6] =>
    y1.isDigit && y2.isDigit && y3.isDigit && y4.isDigit && (s1 == '-') &&
    mo1.isDigit && mo2.isDigit && (s2 == '-') && d1.isDigit && d2.isDigit &&
    (s3 == ' ') && h1.isDigit && h2.isDigit && (s4 == ':') && mi1.isDigit &&
    mi2.isDigit && (s5 == ':') && ss1.isDigit && ss2.isDigit && (s6 == '.') &&
    f1.isDigit && f2.isDigit && f3.isDigit && f4.isDigit && f5.isDigit &&
    f6.isDigit
  | _ => false

/-- "Exactly 6 decimal places": a unique decimal point followed by exactly six
digit characters. -/
def sixDec (cs : List Char) : Prop :=
  ∃ a b, cs = a ++ '.' :: b ∧ b.length = 6 ∧ (∀ c ∈ b, c.isDigit = true) ∧ '.' ∉ a

/-- `format_prefix` (lines 78-93): a list of parts joined together.  The field
order is exactly that of the source's `parts.append` calls. -/
def format_pfx (fd : Nat) (timestamp : Nat) (colorMap : Nat → List Char)
    (fdMap : Nat → Nat) (resetCode : List Char)
    (colorEnabled verbose spaceDelim useUtc useUnix : Bool)
    (startTime : Nat) : List Char :=
  ((if colorEnabled then [colorMap fd] else []) ++
   (if verbose then [natChars (fdMap fd), [if spaceDelim then ' ' else '@']] else []) ++
   [format_timestamp useUtc useUnix startTime timestamp] ++
   [if spaceDelim then [' '] else [':', ' ']] ++
   (if colorEnabled then [resetCode] else [])).flatten

/-- `COLOR` (lines 60-63): bold bright white for the stdout pty master, bold
bright yellow for the stderr pty master. -/
def COLOR (soFd seFd fd : Nat) : List Char :=
  if fd = soFd then ['\x1b', '[', '1', ';', '9', '7', 'm']
  else ['\x1b', '[', '1', ';', '9', '3', 'm']

/-- `FD_MAP` (lines 64-67): the stdout channel writes to real fd 1, the stderr
channel to real fd 2. -/
def FD_MAP (soFd seFd fd : Nat) : Nat :=
  if fd = soFd then 1 else 2

/-- `RESET` (line 68). -/
def RESET : List Char := ['\x1b', '[', '0', 'm']

/-! ## Command line surface (`__main__`, lines 203-226) -/

/-- What the `__main__` block decides to do after `parse_known_args`. -/
inductive MainOutcome where
  | usageError : Nat → MainOutcome
  | helpExit : Nat → MainOutcome
  | runChild : List String → MainOutcome
deriving DecidableEq, Repr

def MainOutcome.spawnsChild : MainOutcome → Bool
  | .runChild _ => true
  | _ => false

/-- Lines 221-224: everything after an explicit `--`, else all of `remaining`. -/
def extractCmd (remaining : List String) : List String :=
  if remaining.contains "--" then remaining.drop (remaining.indexOf "--" + 1)
  else remaining

/-- Lines 214-226: `parser.error` (which exits with status 2) if both `-T` and
`-u`; print help and `sys.exit(1)` if no command remains; otherwise run the
child. -/
def mainDecision (tFlag uFlag : Bool) (remaining : List String) : MainOutcome :=
  if tFlag && uFlag then .usageError 2
  else if remaining.isEmpty then .helpExit 1
  else .runChild (extractCmd remaining)

/-! ## Concrete instances used to exercise the model -/

/-- A parent state as `run_with_ptys` creates it: the stdout pty master gets
the lower descriptor (pty pairs are allocated stdout first). -/
def demoSys : Sys := ⟨3, 5, [3, 5], initChan, initChan⟩

/-- One line arriving on each channel in the same readiness wake. -/
def demoRes : Nat → ReadResult :=
  fun fd => if fd = 5 then .chunk ['y', '\n'] else .chunk ['x', '\n']

/-- An `OSError` on the stderr channel followed by normal stdout traffic. -/
def demoErrEvents : List Event :=
  [.select [5] (fun _ => .ioError), .select [3] (fun _ => .chunk ['x', '\n'])]

/-! ## Lemmas -/

theorem splitNl_ne_nil (bs : Bytes) : splitNl bs ≠ [] := by
  induction bs with
  | nil => simp [splitNl]
  | cons c rest ih =>
    simp only [splitNl]
    cases h : splitNl rest with
    | nil => simp
    | cons l ls => by_cases hc : c = '\n' <;> simp [hc]

theorem unsplit_cons_cons (x y : Bytes) (zs : List Bytes) :
    unsplit (x :: y :: zs) = x ++ '\n' :: unsplit (y :: zs) := by
  simp only [unsplit, List.dropLast, List.map_cons, List.flatten_cons, List.getLastD_cons]
  simp [List.append_assoc]

theorem unsplit_splitNl (bs : Bytes) : unsplit (splitNl bs) = bs := by
  induction bs with
  | nil => rfl
  | cons c rest ih =>
    cases h : splitNl rest with
    | nil => exact absurd h (splitNl_ne_nil rest)
    | cons l ls =>
      rw [h] at ih
      simp only [splitNl, h]
      by_cases hc : c = '\n'
      · subst hc
        rw [if_pos rfl, unsplit_cons_cons]
        simp [ih]
      · rw [if_neg hc]
        cases ls with
        | nil =>
          simp [unsplit] at ih ⊢
          simp [ih]
        | cons z zs =>
          rw [unsplit_cons_cons] at ih
          rw [unsplit_cons_cons]
          simp [← ih]

theorem splitNl_no_newline (bs : Bytes) (h : '\n' ∉ bs) : splitNl bs = [bs] := by
  induction bs with
  | nil => rfl
  | cons c rest ih =>
    simp only [List.mem_cons, not_or] at h
    have hc : ¬ c = '\n' := fun e => h.1 e.symm
    simp [splitNl, ih h.2, hc]

theorem splitNl_append_newline (bs : Bytes) (h : '\n' ∉ bs) :
    splitNl (bs ++ ['\n']) = [bs, []] := by
  induction bs with
  | nil => rfl
  | cons c rest ih =>
    simp only [List.mem_cons, not_or] at h
    have hc : ¬ c = '\n' := fun e => h.1 e.symm
    simp [splitNl, ih h.2, hc]

theorem stripPre_nil : stripPre [] = [] := rfl

theorem stripPre_cons_pre (ts : List Tok) : stripPre (Tok.pre :: ts) = stripPre ts := rfl

theorem stripPre_cons_dat (bs : Bytes) (ts : List Tok) :
    stripPre (Tok.dat bs :: ts) = bs ++ stripPre ts := rfl

theorem stripPre_append (a b : List Tok) : stripPre (a ++ b) = stripPre a ++ stripPre b := by
  induction a with
  | nil => rfl
  | cons t ts ih =>
    cases t
    · simpa [stripPre_cons_pre] using ih
    · simp [stripPre_cons_dat, ih]

theorem stripPre_emitLines (lip : Bool) (ls : List Bytes) :
    stripPre (emitLines lip ls).1 = (ls.map (fun l => l ++ ['\n'])).flatten := by
  induction ls generalizing lip with
  | nil => rfl
  | cons l ls ih =>
    simp only [emitLines]
    cases lip <;>
      simp [stripPre_append, stripPre_cons_pre, stripPre_cons_dat, stripPre_nil, ih]

theorem processChunk_eq_of_rest_nil (st : ChanState) (chunk : Bytes)
    (h : (splitNl (st.buffer ++ chunk)).getLastD [] = []) :
    processChunk st chunk =
      (⟨[], (emitLines st.lineInProgress (splitNl (st.buffer ++ chunk)).dropLast).2⟩,
       (emitLines st.lineInProgress (splitNl (st.buffer ++ chunk)).dropLast).1) := by
  simp only [processChunk]
  rw [if_pos h]

theorem processChunk_eq_of_rest_ne (st : ChanState) (chunk : Bytes)
    (h : ¬ (splitNl (st.buffer ++ chunk)).getLastD [] = []) :
    processChunk st chunk =
      (⟨[], true⟩,
       (emitLines st.lineInProgress (splitNl (st.buffer ++ chunk)).dropLast).1 ++
         [Tok.pre, Tok.dat ((splitNl (st.buffer ++ chunk)).getLastD [])]) := by
  simp only [processChunk]
  rw [if_neg h]

/-- Each read batch writes back exactly the buffered plus new bytes (prefix
writes aside) and always leaves the accumulation buffer empty. -/
theorem processChunk_spec (st : ChanState) (chunk : Bytes) :
    stripPre (processChunk st chunk).2 = st.buffer ++ chunk ∧
    (processChunk st chunk).1.buffer = [] := by
  have key : (List.map (fun l => l ++ ['\n']) (splitNl (st.buffer ++ chunk)).dropLast).flatten
      ++ (splitNl (st.buffer ++ chunk)).getLastD [] = st.buffer ++ chunk := by
    have h := unsplit_splitNl (st.buffer ++ chunk)
    simpa [unsplit] using h
  by_cases h : (splitNl (st.buffer ++ chunk)).getLastD [] = []
  · rw [processChunk_eq_of_rest_nil st chunk h]
    refine ⟨?_, rfl⟩
    rw [stripPre_emitLines]
    rw [h, List.append_nil] at key
    exact key
  · rw [processChunk_eq_of_rest_ne st chunk h]
    refine ⟨?_, rfl⟩
    rw [stripPre_append, stripPre_emitLines, stripPre_cons_pre, stripPre_cons_dat]
    simpa [stripPre_nil] using key

theorem processBatches_stripPre (lip : Bool) (cs : List Bytes) :
    stripPre (processBatches ⟨[], lip⟩ cs).2 = cs.flatten ∧
    (processBatches ⟨[], lip⟩ cs).1.buffer = [] := by
  induction cs generalizing lip with
  | nil => simp [processBatches, stripPre]
  | cons c cs ih =>
    simp only [processBatches, stripPre_append, List.flatten_cons]
    have h1 := processChunk_spec ⟨[], lip⟩ c
    rcases h : processChunk ⟨[], lip⟩ c with ⟨st1, t1⟩
    rw [h] at h1
    simp only at h1
    rcases st1 with ⟨buf1, lip1⟩
    simp only at h1
    rw [h1.2]
    exact ⟨by rw [h1.1, (ih lip1).1]; simp, (ih lip1).2⟩

theorem sortDesc_pair (a b : Nat) (h : a < b) : sortDesc [a, b] = [b, a] := by
  simp only [sortDesc, List.foldr_cons, List.foldr_nil, insertDesc]
  rw [if_neg (by omega)]

theorem handleFd_bufEmpty (s : Sys) (fd : Nat) (r : ReadResult) (h : bufEmpty s) :
    bufEmpty (handleFd s fd r).1 := by
  cases r with
  | eof => exact h
  | ioError => exact h
  | chunk bs =>
    have hb := (processChunk_spec (s.getChan fd) bs).2
    simp only [handleFd, Sys.setChan]
    by_cases hfd : fd = s.soFd
    · rw [if_pos hfd]
      exact ⟨hb, h.2⟩
    · rw [if_neg hfd]
      exact ⟨h.1, hb⟩

theorem runFds_bufEmpty (res : Nat → ReadResult) (l : List Nat) (s : Sys) (h : bufEmpty s) :
    bufEmpty (runFds res s l).1 := by
  induction l generalizing s with
  | nil => exact h
  | cons fd rest ih =>
    simp only [runFds]
    exact ih _ (handleFd_bufEmpty s fd (res fd) h)

theorem tagDrain_of_bufEmpty (s : Sys) (h : bufEmpty s) : tagDrain s = [] := by
  simp [tagDrain, drainFd, drainToks, h.1, h.2]

theorem runLoop_no_interrupt (child : Nat) (s : Sys) (events : List Event)
    (h : events.all (fun e => !e.isInterrupt) = true) :
    (runLoop child s events).exitCode = child ∧
    (runLoop child s events).sigtermSent = false ∧
    (runLoop child s events).drained = true := by
  induction events generalizing s with
  | nil => exact ⟨rfl, rfl, rfl⟩
  | cons e rest ih =>
    simp only [List.all_cons, Bool.and_eq_true] at h
    cases e with
    | interrupt => simp [Event.isInterrupt] at h
    | select readable res =>
      simp only [runLoop]
      by_cases hf : s.fds.isEmpty
      · rw [if_pos hf]
        exact ⟨rfl, rfl, rfl⟩
      · rw [if_neg hf]
        exact ih _ h.2

theorem isDigit_digitChar_of_lt : ∀ k, k < 10 → (Nat.digitChar k).isDigit = true := by decide

theorem isDigit_digitChar_mod (n : Nat) : (Nat.digitChar (n % 10)).isDigit = true :=
  isDigit_digitChar_of_lt _ (Nat.mod_lt _ (by omega))

theorem natChars_all_digits (n : Nat) : ∀ c ∈ natChars n, c.isDigit = true := by
  induction n using Nat.strong_induction_on with
  | _ n ih =>
    rw [natChars]
    split
    · next h =>
      intro c hc
      simp only [List.mem_singleton] at hc
      subst hc
      exact isDigit_digitChar_of_lt n h
    · next h =>
      intro c hc
      rw [List.mem_append] at hc
      cases hc with
      | inl h1 => exact ih (n / 10) (Nat.div_lt_self (by omega) (by omega)) c h1
      | inr h2 =>
        simp only [List.mem_singleton] at h2
        subst h2
        exact isDigit_digitChar_mod n

theorem dot_not_mem_natChars (n : Nat) : '.' ∉ natChars n := by
  intro h
  have hd := natChars_all_digits n '.' h
  exact absurd hd (by decide)

theorem pad6_all_digits (n : Nat) : ∀ c ∈ pad6 n, c.isDigit = true := by
  intro c hc
  simp only [pad6, List.mem_cons, List.not_mem_nil, or_false] at hc
  rcases hc with h | h | h | h | h | h <;> subst h <;> exact isDigit_digitChar_mod _

theorem sixDec_fmt6 (n : Nat) : sixDec (fmt6 n) :=
  ⟨natChars (n / 1000000), pad6 (n % 1000000), rfl, rfl, pad6_all_digits _,
   dot_not_mem_natChars _⟩

theorem sixDec_fmt6Int (d : Int) : sixDec (fmt6Int d) := by
  unfold fmt6Int
  split
  · exact ⟨'-' :: natChars (d.natAbs / 1000000), pad6 (d.natAbs % 1000000), rfl, rfl,
      pad6_all_digits _, by
        simp only [List.mem_cons, not_or]
        exact ⟨by decide, dot_not_mem_natChars _⟩⟩
  · exact sixDec_fmt6 _

theorem layoutOk_utcChars (ts : Nat) : layoutOk (utcChars ts) = true := by
  simp only [utcChars, pad4, pad2, pad6, List.cons_append, List.nil_append, layoutOk,
    Bool.and_eq_true, beq_self_eq_true, and_true, true_and, isDigit_digitChar_mod,
    and_self]

theorem processChunk_no_nl (lip : Bool) (x : Bytes) (hx : x ≠ []) (hxn : '\n' ∉ x) :
    processChunk ⟨[], lip⟩ x = (⟨[], true⟩, [Tok.pre, Tok.dat x]) := by
  have h : ¬ ((splitNl ((ChanState.mk [] lip).buffer ++ x)).getLastD [] = []) := by
    show ¬ ((splitNl ([] ++ x)).getLastD [] = [])
    rw [List.nil_append, splitNl_no_newline x hxn]
    simpa using hx
  rw [processChunk_eq_of_rest_ne _ _ h]
  show (_, _) = (_, _)
  have hs : splitNl ((ChanState.mk [] lip).buffer ++ x) = [x] := by
    show splitNl ([] ++ x) = [x]
    rw [List.nil_append]
    exact splitNl_no_newline x hxn
  rw [hs]
  simp [emitLines]

theorem processChunk_complete (lip : Bool) (y : Bytes) (hyn : '\n' ∉ y) :
    processChunk ⟨[], lip⟩ (y ++ ['\n']) =
      (⟨[], false⟩,
       if lip then [Tok.dat (y ++ ['\n'])] else [Tok.pre, Tok.dat (y ++ ['\n'])]) := by
  have hs : splitNl ((ChanState.mk [] lip).buffer ++ (y ++ ['\n'])) = [y, []] := by
    show splitNl ([] ++ (y ++ ['\n'])) = [y, []]
    rw [List.nil_append]
    exact splitNl_append_newline y hyn
  have h : (splitNl ((ChanState.mk [] lip).buffer ++ (y ++ ['\n']))).getLastD [] = [] := by
    rw [hs]
    rfl
  rw [processChunk_eq_of_rest_nil _ _ h, hs]
  cases lip <;> simp [emitLines]

/-- Sanity anchor for the calendar arithmetic: the Unix epoch itself. -/
theorem utcChars_epoch : utcChars 0 = ("1970-01-01 00:00:00.000000").data := by decide

/-- Sanity anchor across a leap-year boundary: 2000-03-01 00:00:00 UTC is
951868800 seconds after the epoch. -/
theorem utcChars_y2k_leap :
    utcChars (951868800 * 1000000 + 123456) = ("2000-03-01 00:00:00.123456").data := by
  decide

/-! ## Claims -/

/-- C1: the claim says a prefix is written before a non-empty trailing
remainder only when the "line in progress" flag is false, so that a line split
across read batches is prefixed exactly once and a prefix never appears
mid-line.  The code writes `prefix + partial_line` unconditionally (line 168):
after a batch `a` leaves the flag true, a second newline-free batch `b` still
gets a prefix, i.e. a second prefix lands in the middle of the same line.  This
theorem evaluates the embedded batch logic at this failing input. -/
theorem c1_second_pre_mid_line :
    (processBatches initChan [['a']]).1.lineInProgress = true ∧
    (processBatches initChan [['a'], ['b']]).2 =
      [Tok.pre, Tok.dat ['a'], Tok.pre, Tok.dat ['b']] := by
  decide

/-- C2: for any chunking of the received bytes, the concatenation of the
emitted bytes with every prefix write removed (the final drain, which would
append one newline to any leftover, contributes nothing) equals the received
bytes exactly and in order. -/
theorem c2_round_trip (batches : List Bytes) :
    stripPre ((processBatches initChan batches).2 ++
      drainToks (processBatches initChan batches).1) = batches.flatten := by
  have h1 : stripPre (processBatches initChan batches).2 = batches.flatten :=
    (processBatches_stripPre false batches).1
  have h2 : (processBatches initChan batches).1.buffer = [] :=
    (processBatches_stripPre false batches).2
  have hd : drainToks (processBatches initChan batches).1 = [] := by
    simp [drainToks, h2]
  rw [stripPre_append, h1, hd, stripPre_nil, List.append_nil]

/-- C3: when both descriptors are ready in the same `select` wake, the
iteration handles the stderr channel (the larger descriptor, allocated second)
before the stdout channel, so stderr's tokens precede stdout's in the emitted
output of that iteration. -/
theorem c3_stderr_first (s : Sys) (res : Nat → ReadResult) (h : s.soFd < s.seFd) :
    runSelect s [s.soFd, s.seFd] res =
      ((handleFd (handleFd s s.seFd (res s.seFd)).1 s.soFd (res s.soFd)).1,
       (handleFd s s.seFd (res s.seFd)).2 ++
         (handleFd (handleFd s s.seFd (res s.seFd)).1 s.soFd (res s.soFd)).2) := by
  unfold runSelect
  rw [sortDesc_pair _ _ h]
  simp [runFds]

/-- C3 witness: with one line per channel in the same wake, stderr's prefixed
line is emitted before stdout's. -/
theorem c3_stderr_first_witness :
    (3 : Nat) < 5 ∧
    (runSelect demoSys [3, 5] demoRes).2 =
      [(5, Tok.pre), (5, Tok.dat ['y', '\n']), (3, Tok.pre), (3, Tok.dat ['x', '\n'])] := by
  refine ⟨by decide, ?_⟩
  have h2 : (runSelect demoSys [3, 5] demoRes).2 =
      (handleFd demoSys 5 (demoRes 5)).2 ++
        (handleFd (handleFd demoSys 5 (demoRes 5)).1 3 (demoRes 3)).2 :=
    congrArg Prod.snd (c3_stderr_first demoSys demoRes (by decide))
  exact h2.trans (by decide)

/-- C4: a batch ending mid-line followed by a batch completing the line yields
exactly one prefixed write of the first fragment (no trailing newline, flag set
in between), then an unprefixed write of the completing fragment with its
newline, after which the flag is clear. -/
theorem c4_split_line (x y : Bytes) (hx : x ≠ []) (hxn : '\n' ∉ x) (hyn : '\n' ∉ y) :
    processBatches initChan [x, y ++ ['\n']] =
      (⟨[], false⟩, [Tok.pre, Tok.dat x, Tok.dat (y ++ ['\n'])]) ∧
    (processBatches initChan [x]).1.lineInProgress = true := by
  have e1 : processChunk initChan x = (⟨[], true⟩, [Tok.pre, Tok.dat x]) :=
    processChunk_no_nl false x hx hxn
  have e2 : processChunk ⟨[], true⟩ (y ++ ['\n']) = (⟨[], false⟩, [Tok.dat (y ++ ['\n'])]) := by
    have h := processChunk_complete true y hyn
    simpa using h
  constructor
  · simp [processBatches, e1, e2]
  · simp [processBatches, e1]

/-- C4 witness: the spec's Scenario B, batches `b"a"` then `b"b\n"`. -/
theorem c4_split_line_witness :
    ((['a'] : Bytes) ≠ [] ∧ '\n' ∉ (['a'] : Bytes) ∧ '\n' ∉ (['b'] : Bytes)) ∧
    processBatches initChan [['a'], ['b'] ++ ['\n']] =
      (⟨[], false⟩, [Tok.pre, Tok.dat ['a'], Tok.dat (['b'] ++ ['\n'])]) :=
  ⟨⟨by decide, by decide, by decide⟩,
   (c4_split_line ['a'] ['b'] (by decide) (by decide) (by decide)).1⟩

/-- C5: every read batch leaves the channel buffer empty, one whole `select`
iteration preserves emptiness of both buffers (so buffers are empty at the top
of every readiness wait), and the post-loop drain of a state with empty
buffers emits nothing. -/
theorem c5_buffers_empty (st : ChanState) (c : Bytes) (s : Sys)
    (readable : List Nat) (res : Nat → ReadResult) (h : bufEmpty s) :
    (processChunk st c).1.buffer = [] ∧
    bufEmpty (runSelect s readable res).1 ∧
    tagDrain s = [] :=
  ⟨(processChunk_spec st c).2, runFds_bufEmpty res _ s h,
   tagDrain_of_bufEmpty s h⟩

/-- C5 witness at a concrete state and iteration. -/
theorem c5_buffers_empty_witness :
    bufEmpty demoSys ∧
    (processChunk initChan ['a']).1.buffer = [] ∧
    bufEmpty (runSelect demoSys [3, 5] demoRes).1 ∧
    tagDrain demoSys = [] := by
  have h : bufEmpty demoSys := ⟨rfl, rfl⟩
  obtain ⟨h1, h2, h3⟩ := c5_buffers_empty initChan ['a'] demoSys [3, 5] demoRes h
  exact ⟨h, h1, h2, h3⟩

/-- C6: the timestamp formatter is a pure function of instant, mode and session
start: in UTC mode it ignores the session start and the Unix flag and produces
the fixed 26-character `YYYY-MM-DD HH:MM:SS.ssssss` layout; in Unix mode it
prints the instant's absolute seconds with exactly six decimals; in default
mode it prints instant minus session start with exactly six decimals. -/
theorem c6_format_timestamp (startTime ts : Nat) :
    (∀ (b b2 : Bool) (start2 : Nat),
      format_timestamp true b startTime ts = format_timestamp true b2 start2 ts) ∧
    layoutOk (format_timestamp true false startTime ts) = true ∧
    format_timestamp false true startTime ts = fmt6 ts ∧
    sixDec (format_timestamp false true startTime ts) ∧
    format_timestamp false false startTime ts = fmt6Int ((ts : Int) - (startTime : Int)) ∧
    sixDec (format_timestamp false false startTime ts) := by
  refine ⟨fun b b2 s2 => rfl, ?_, rfl, ?_, rfl, ?_⟩
  · exact layoutOk_utcChars ts
  · exact sixDec_fmt6 ts
  · exact sixDec_fmt6Int _

/-- C7: the built prefix is, left to right: color-start code if color is on,
then (only if verbose) the stream's numeric id and a delimiter, then the
formatted timestamp, then the field delimiter (one space when space-delimited,
else colon-space), then the color-reset code if color is on; and under
`-v -s` a stderr line `hi` renders as `2 <timestamp> hi`. -/
theorem c7_prefix_fields (fd timestamp startTime : Nat) (colorMap : Nat → List Char)
    (fdMap : Nat → Nat) (resetCode : List Char) (ce v sd uu ux : Bool) :
    format_pfx fd timestamp colorMap fdMap resetCode ce v sd uu ux startTime =
      (if ce then colorMap fd else []) ++
      ((if v then natChars (fdMap fd) ++ [if sd then ' ' else '@'] else []) ++
       (format_timestamp uu ux startTime timestamp ++
        ((if sd then [' '] else [':', ' ']) ++
         (if ce then resetCode else [])))) ∧
    format_pfx 5 timestamp (COLOR 3 5) (FD_MAP 3 5) RESET false true true false false
        startTime ++ ['h', 'i'] =
      '2' :: ' ' :: (format_timestamp false false startTime timestamp ++
        ' ' :: ['h', 'i']) := by
  constructor
  · simp only [format_pfx]
    cases ce <;> cases v <;> cases sd <;> simp
  · have h2 : natChars 2 = ['2'] := by
      rw [natChars.eq_def]
      decide
    simp [format_pfx, FD_MAP, h2]

/-- C8: with no command remaining the program prints help and exits 1 without
spawning a child; with both `-T` and `-u` it raises a usage error (exit 2,
non-zero) before anything is launched. -/
theorem c8_usage (t u : Bool) (remaining : List String) :
    (t = true → u = true →
      mainDecision t u remaining = .usageError 2 ∧
      (mainDecision t u remaining).spawnsChild = false) ∧
    (¬ (t = true ∧ u = true) → remaining = [] →
      mainDecision t u remaining = .helpExit 1 ∧
      (mainDecision t u remaining).spawnsChild = false) := by
  constructor
  · intro ht hu
    subst ht
    subst hu
    simp [mainDecision, MainOutcome.spawnsChild]
  · intro h hr
    subst hr
    have hb : (t && u) = false := by
      cases t <;> cases u <;> simp_all
    simp [mainDecision, hb, MainOutcome.spawnsChild]

/-- C8 witness: `-T -u some-command` errors out; an empty command line gets
the help exit. -/
theorem c8_usage_witness :
    (mainDecision true true ["ls"] = .usageError 2 ∧
      (mainDecision true true ["ls"]).spawnsChild = false) ∧
    (mainDecision false false [] = .helpExit 1 ∧
      (mainDecision false false []).spawnsChild = false) :=
  ⟨(c8_usage true true ["ls"]).1 rfl rfl,
   (c8_usage false false []).2 (by simp) rfl⟩

/-- C9: an I/O error on a read is handled exactly like a zero-length read: the
descriptor is removed from the wait set and closed, and a run without
interrupts still terminates normally (child's exit status, no signal, drain
reached). -/
theorem c9_ioerror_as_eof (s : Sys) (fd : Nat) (child : Nat) (events : List Event)
    (h : events.all (fun e => !e.isInterrupt) = true) :
    handleFd s fd .ioError = handleFd s fd .eof ∧
    (handleFd s fd .ioError).1.fds = s.fds.erase fd ∧
    (runLoop child s events).exitCode = child ∧
    (runLoop child s events).sigtermSent = false ∧
    (runLoop child s events).drained = true := by
  obtain ⟨h1, h2, h3⟩ := runLoop_no_interrupt child s events h
  exact ⟨rfl, rfl, h1, h2, h3⟩

/-- C9 witness: stderr hits an `OSError`, stdout keeps being served, the run
ends with the child's status. -/
theorem c9_ioerror_as_eof_witness :
    demoErrEvents.all (fun e => !e.isInterrupt) = true ∧
    handleFd demoSys 5 .ioError = handleFd demoSys 5 .eof ∧
    (runLoop 7 demoSys demoErrEvents).exitCode = 7 ∧
    (runLoop 7 demoSys demoErrEvents).sigtermSent = false ∧
    (runLoop 7 demoSys demoErrEvents).drained = true := by
  have h : demoErrEvents.all (fun e => !e.isInterrupt) = true := by decide
  obtain ⟨h1, _, h3, h4, h5⟩ := c9_ioerror_as_eof demoSys 5 7 demoErrEvents h
  exact ⟨h, h1, h3, h4, h5⟩

/-- C10: a `KeyboardInterrupt` while descriptors are still open makes the
wrapper forward SIGTERM to the child and exit 130 immediately: no further
output, no drain. -/
theorem c10_interrupt (s : Sys) (child : Nat) (rest : List Event)
    (h : s.fds ≠ []) :
    runLoop child s (Event.interrupt :: rest) = ⟨[], 130, true, false⟩ := by
  simp only [runLoop]
  rw [if_neg (by simpa [List.isEmpty_iff] using h)]

/-- C10 witness at the demo state. -/
theorem c10_interrupt_witness :
    demoSys.fds ≠ [] ∧
    runLoop 7 demoSys (Event.interrupt :: []) = ⟨[], 130, true, false⟩ :=
  ⟨by decide, c10_interrupt demoSys 7 [] (by decide)⟩

end Tsout
